import Mathlib

/-!
# Verification of the recipe-suggestions filtering core

Shallow embedding of `src/App.tsx` (a browser recipe-finder UI).  The
verifiable core is the pure filtering pipeline: ingredient extraction,
the cook-time estimator, the four boolean predicates (time, mood, diet,
exclusion), input parsing, the ID-set intersection, and the search
orchestrator's state transitions.  JavaScript strings are modelled as
Lean `String`s; `String.prototype.toLowerCase` is modelled on the ASCII
range (the only range the filters' constant word lists exercise);
`Math.round` is modelled as `⌊x + 1/2⌋` on `ℚ`, which agrees with the
JS semantics on the exact quarter-integer values that arise here.
-/

namespace RecipeSuggestions

/-- `type MealSummary` (App.tsx lines 4-8). -/
structure MealSummary where
  idMeal : String
  strMeal : String
  strMealThumb : String
deriving DecidableEq

/-- `type MealDetails` (App.tsx lines 10-17): the summary fields plus the
nullable detail fields; the dynamic keys `strIngredient1..20` /
`strMeasure1..20` are modelled as functions from the slot index. -/
structure MealDetails where
  idMeal : String
  strMeal : String
  strMealThumb : String
  strCategory : Option String
  strArea : Option String
  strTags : Option String
  strInstructions : Option String
  strIngredient : Nat → Option String
  strMeasure : Nat → Option String

/-- One extracted `{ ingredient, measure }` pair (App.tsx line 61). -/
structure IngredientLine where
  ingredient : String
  measure : String
deriving DecidableEq

/-- JS `s.includes(sub)`: `sub` occurs contiguously inside `s`. -/
def strIncludes (s sub : String) : Bool := decide (sub.data <:+: s.data)

/-- JS `Char` lower-casing on the basic-latin range (the model of
`String.prototype.toLowerCase`, which the source only ever compares
against ASCII word lists). -/
def charToLower (c : Char) : Char :=
  if 65 ≤ c.toNat ∧ c.toNat ≤ 90 then Char.ofNat (c.toNat + 32) else c

/-- JS `s.toLowerCase()`. -/
def lowerStr (s : String) : String := String.mk (s.data.map charToLower)

/-- JS `s.trim()`: drop leading and trailing whitespace (modelled over
the character list so that it is structurally recursive). -/
def jsTrim (s : String) : String :=
  String.mk (((s.data.dropWhile Char.isWhitespace).reverse.dropWhile Char.isWhitespace).reverse)

/-- Split a character list at every separator character, JS
`String.prototype.split` style: `"a,,b"` gives three groups and the
empty list gives one empty group. -/
def splitCharAux (sep : Char) : List Char → List (List Char)
  | [] => [[]]
  | c :: rest =>
    match splitCharAux sep rest with
    | [] => [[]]
    | group :: groups => if c = sep then [] :: group :: groups else (c :: group) :: groups

/-- JS `s.split(',')`. -/
def jsSplitComma (s : String) : List String :=
  (splitCharAux ',' s.data).map String.mk

/-- Split a character list at every whitespace character; together with
dropping empty groups this models JS `s.split(/\s+/).filter(Boolean)`. -/
def splitWsAux : List Char → List (List Char)
  | [] => [[]]
  | c :: rest =>
    match splitWsAux rest with
    | [] => [[]]
    | group :: groups =>
      if c.isWhitespace then [] :: group :: groups else (c :: group) :: groups

/-- `getIngredients` (App.tsx lines 61-71): scan slots 1..20 in order and
keep each slot whose ingredient value is truthy and non-blank after
trimming; the measure defaults to the empty string when absent. -/
def getIngredients (m : MealDetails) : List IngredientLine :=
  (List.range' 1 20).filterMap fun i =>
    match m.strIngredient i with
    | none => none
    | some ing =>
      if ing ≠ "" ∧ jsTrim ing ≠ "" then
        some ⟨jsTrim ing, jsTrim ((m.strMeasure i).getD "")⟩
      else none

/-- The `DIETS` enumeration (App.tsx line 46). -/
inductive Diet where
  | dietNone
  | vegetarian
  | vegan
  | glutenFree
deriving DecidableEq

/-- `type TimeChoice` (App.tsx line 50). -/
inductive TimeChoice where
  | any
  | under15
  | under30
  | under45
  | plus60
deriving DecidableEq

/-- The mood dropdown values: `'Any' | keyof typeof MOOD_MAP` (App.tsx line 87). -/
inductive MoodChoice where
  | any
  | comforting
  | healthy
  | adventurous
  | quick
deriving DecidableEq

/-- One entry of `MOOD_MAP`: optional category list, optional
tag-substring list (App.tsx line 39). -/
structure MoodConf where
  categories : Option (List String)
  tagsContains : Option (List String)

/-- `MOOD_MAP` (App.tsx lines 39-44).  `.any` has no entry in the source
map; `matchesMood` returns before looking it up. -/
def MOOD_MAP : MoodChoice → MoodConf
  | .comforting => ⟨some ["Beef", "Pasta", "Pork", "Chicken"], none⟩
  | .healthy => ⟨some ["Vegetarian", "Vegan", "Salad"], some ["Low Fat", "Healthy"]⟩
  | .adventurous => ⟨some ["Seafood", "Lamb", "Goat"], some ["Spicy"]⟩
  | .quick => ⟨none, some ["Quick", "Easy"]⟩
  | .any => ⟨none, none⟩

/-- `matchesDiet` (App.tsx lines 73-85). -/
def matchesDiet (m : MealDetails) (diet : Diet) : Bool :=
  if diet = Diet.dietNone then true
  else
    let tags := lowerStr (m.strTags.getD "")
    let category := lowerStr (m.strCategory.getD "")
    let ings := (getIngredients m).map fun i => lowerStr i.ingredient
    if diet = Diet.vegetarian then
      strIncludes tags "vegetarian" || decide (category = "vegetarian")
    else if diet = Diet.vegan then
      strIncludes tags "vegan" || decide (category = "vegan")
    else if diet = Diet.glutenFree then
      let gluteny := ["flour", "bread", "pasta", "noodles", "wheat", "barley", "bulgur", "semolina"]
      !(ings.any fun i => gluteny.any fun g => strIncludes i g)
    else true

/-- `matchesMood` (App.tsx lines 87-95).  Note the source guards:
`catOk` is true when the mood configures no category list at all, and
`tagOk` is true when it configures no tag-substring list; the two are
then combined with OR. -/
def matchesMood (m : MealDetails) (mood : MoodChoice) : Bool :=
  if mood = MoodChoice.any then true
  else
    let conf := MOOD_MAP mood
    let category := m.strCategory.getD ""
    let tags := (jsSplitComma (m.strTags.getD "")).map jsTrim
    let catOk := conf.categories.isNone || (conf.categories.getD []).contains category
    let tagOk := conf.tagsContains.isNone ||
      ((conf.tagsContains.getD []).any fun t => tags.any fun x => strIncludes x t)
    catOk || tagOk

/-- `excludeIngredients` (App.tsx lines 106-110).  The exclude terms are
compared verbatim; only the ingredient names are lower-cased. -/
def excludeIngredients (m : MealDetails) (excludes : List String) : Bool :=
  if excludes.isEmpty then true
  else
    let ings := (getIngredients m).map fun i => lowerStr i.ingredient
    !(excludes.any fun ex => ings.any fun i => strIncludes i ex)

/-- JS `Math.round` on the non-negative quarter-integers produced by the
estimator: round half towards positive infinity, i.e. `⌊q + 1/2⌋`. -/
def jsRound (q : ℚ) : ℤ := ⌊q + 1 / 2⌋

/-- The word count of `estimateMinutes` (App.tsx line 54):
`instr.split(/\s+/).filter(Boolean).length`, the number of maximal
non-whitespace runs. -/
def countWords (instr : String) : Nat :=
  (((splitWsAux instr.data).map String.mk).filter fun s => s ≠ "").length

/-- `estimateMinutes` (App.tsx lines 52-59): `0.25` minutes per
instruction word plus `2` minutes per ingredient, rounded, then clamped
into `[5, 180]` by `Math.max(5, Math.min(est, 180))`. -/
def estimateMinutes (m : MealDetails) : ℤ :=
  let instr := jsTrim (m.strInstructions.getD "")
  let words := countWords instr
  let ingredientsCount := (getIngredients m).length
  let est := jsRound ((words : ℚ) * (1 / 4) + (ingredientsCount : ℚ) * 2)
  max 5 (min est 180)

/-- `matchesTime` (App.tsx lines 97-104). -/
def matchesTime (m : MealDetails) (time : TimeChoice) : Bool :=
  if time = TimeChoice.any then true
  else
    let mins := estimateMinutes m
    if time = TimeChoice.under15 then decide (mins ≤ 15)
    else if time = TimeChoice.under30 then decide (mins ≤ 30)
    else if time = TimeChoice.under45 then decide (mins ≤ 45)
    else decide (mins ≥ 60)

/-- `parsedIngredients` (App.tsx lines 123-126): split the raw input on
commas, trim and lower-case each entry, drop blanks. -/
def parseIngredients (input : String) : List String :=
  ((jsSplitComma input).map fun s => lowerStr (jsTrim s)).filter fun s => s ≠ ""

/-- `parsedExcludes` (App.tsx lines 127-130): identical parsing applied
to the exclude input. -/
def parseExcludes (input : String) : List String :=
  ((jsSplitComma input).map fun s => lowerStr (jsTrim s)).filter fun s => s ≠ ""

/-- JS `new Set(list)` insertion-order semantics: keep the first
occurrence of each element, in order. -/
def insertionDedup (l : List String) : List String :=
  l.foldl (fun acc x => if x ∈ acc then acc else acc ++ [x]) []

/-- One step of the intersection loop (App.tsx line 153):
`new Set([...intersection].filter((id) => s.has(id)))`. -/
def interStep (acc s : List String) : List String :=
  acc.filter fun id => decide (id ∈ s)

/-- The intersection loop of `onSearch` (App.tsx lines 150-155): start
from the first ID set (a JS `Set`, so deduplicated in insertion order)
and intersect with each following set; `null` (no list at all) becomes
the empty list via `intersection ?? new Set()`. -/
def intersectIds (idLists : List (List String)) : List String :=
  match idLists with
  | [] => []
  | l :: ls => ls.foldl interStep (insertionDedup l)

/-- The per-meal filter conjunction of `onSearch` (App.tsx line 170). -/
def passesAllFilters (m : MealDetails) (time : TimeChoice) (mood : MoodChoice)
    (diet : Diet) (excludes : List String) : Bool :=
  matchesTime m time && matchesMood m mood && matchesDiet m diet &&
    excludeIngredients m excludes

/-- The pure core of `onSearch` steps 3-5 (App.tsx lines 147-171), once
every `filterByIngredient` query has succeeded: map each returned list
to its ID set, intersect, keep the first 24 IDs, fetch details
(`details` is the response of `API.detailsById`; `none` models an
absent/soft-failed lookup and is dropped by the `filter((m) => !!m)`),
and apply the four predicates. -/
def searchResults (lists : List (List MealSummary)) (details : String → Option MealDetails)
    (time : TimeChoice) (mood : MoodChoice) (diet : Diet) (excludes : List String) :
    List MealDetails :=
  let idSets := lists.map fun list => list.map fun m => m.idMeal
  let ids := intersectIds idSets
  let selected := ids.take 24
  let fetched := selected.filterMap details
  fetched.filter fun m => passesAllFilters m time mood diet excludes

/-- The component state touched by `onSearch` (App.tsx lines 118-121):
`expanded` is the set of meal IDs whose card is open (the `Record`'s
true keys). -/
structure UIState where
  loading : Bool
  error : Option String
  meals : List MealDetails
  expanded : List String

/-- The form inputs read by `onSearch`. -/
structure SearchInput where
  ingredientsInput : String
  excludeInput : String
  time : TimeChoice
  mood : MoodChoice
  diet : Diet

/-- Outcome of the network phase: either some `filterByIngredient` call
rejected (all-or-nothing `Promise.all`), or every call succeeded and
`details` gives each `detailsById` response. -/
inductive FetchOutcome where
  | networkError (msg : String)
  | ok (lists : List (List MealSummary)) (details : String → Option MealDetails)

/-- `onSearch` (App.tsx lines 132-179) as a state transition.  It first
clears error/meals/expanded and sets loading; on empty parsed input it
stores the validation message; on a rejected discovery query the catch
block stores the error message; otherwise it stores the filtered
results.  The `finally` block clears loading on every path. -/
def onSearch (st : UIState) (input : SearchInput) (outcome : FetchOutcome) : UIState :=
  let st1 : UIState := { st with loading := true, error := none, meals := [], expanded := [] }
  if (parseIngredients input.ingredientsInput).isEmpty then
    { st1 with error := some "Enter at least one ingredient.", loading := false }
  else
    match outcome with
    | .networkError msg => { st1 with error := some msg, loading := false }
    | .ok lists details =>
      let filtered := searchResults lists details input.time input.mood input.diet
        (parseExcludes input.excludeInput)
      { st1 with meals := filtered, loading := false }

/-- The list of ingredients passed to `API.filterByIngredient`, one call
per element (App.tsx line 147: `parsedIngredients.map((ing) =>
API.filterByIngredient(ing))`). -/
def issuedQueries (input : String) : List String := parseIngredients input

/-! ## Definitions written from the specification text, for comparison -/

/-- Written from the spec sentence for `estimateMinutes`: compute
`round(words * 0.25 + n * 2)`, then clamp to the closed range
`[5, 180]` (`round` is Mathlib's rounding). -/
def estimateSpec (words n : Nat) : ℤ :=
  max 5 (min (round ((words : ℚ) * (1 / 4) + (n : ℚ) * 2)) 180)

/-- Written from the claim's words for `matchesMood`: true iff the
meal's category is a member of the mood's configured category set OR
some meal tag contains one of the mood's configured tag substrings; a
missing half of the configuration contributes nothing. -/
def specMatchesMood (m : MealDetails) (mood : MoodChoice) : Bool :=
  let conf := MOOD_MAP mood
  let category := m.strCategory.getD ""
  let tags := (jsSplitComma (m.strTags.getD "")).map jsTrim
  (conf.categories.getD []).contains category ||
    ((conf.tagsContains.getD []).any fun t => tags.any fun x => strIncludes x t)

/-- Written from the claim's words for `excludeIngredients`: true iff
the exclusion list is empty or no excluded term **lowercased** is a
substring of any lower-cased extracted ingredient name.  The source
compares the term verbatim instead. -/
def excludeSpecLowercased (m : MealDetails) (excludes : List String) : Bool :=
  if excludes.isEmpty then true
  else
    let ings := (getIngredients m).map fun i => lowerStr i.ingredient
    !(excludes.any fun ex => ings.any fun i => strIncludes i (lowerStr ex))

/-- A slot survives `getIngredients` iff its ingredient value is
present, truthy and non-blank after trimming (the loop condition at
App.tsx line 66). -/
def slotKept (m : MealDetails) (i : Nat) : Bool :=
  match m.strIngredient i with
  | none => false
  | some ing => decide (ing ≠ "" ∧ jsTrim ing ≠ "")

/-- The `{ ingredient, measure }` pair produced for a kept slot
(App.tsx line 67): both fields trimmed, the measure defaulting to the
empty string when absent. -/
def slotLine (m : MealDetails) (i : Nat) : IngredientLine :=
  ⟨jsTrim ((m.strIngredient i).getD ""), jsTrim ((m.strMeasure i).getD "")⟩

/-! ## Concrete test fixtures -/

/-- A meal whose ingredient list contains "Wheat Flour" (slot 3 blank
after trimming, so it must be skipped). -/
def mealWheat : MealDetails where
  idMeal := "101"
  strMeal := "Flatbread"
  strMealThumb := ""
  strCategory := some "Side"
  strArea := none
  strTags := some "Baking"
  strInstructions := some "Mix the wheat flour with water and bake."
  strIngredient := fun i =>
    if i = 1 then some "Wheat Flour" else if i = 2 then some "Water"
    else if i = 3 then some "  " else none
  strMeasure := fun i => if i = 1 then some "2 cups" else none

/-- The meal of the spec's exclusion example: ingredients
`["Chicken", "Peanuts"]`. -/
def mealChickenPeanuts : MealDetails where
  idMeal := "102"
  strMeal := "Peanut Chicken"
  strMealThumb := ""
  strCategory := some "Chicken"
  strArea := none
  strTags := none
  strInstructions := some "Fry the chicken with peanuts."
  strIngredient := fun i =>
    if i = 1 then some "Chicken" else if i = 2 then some "Peanuts" else none
  strMeasure := fun _ => none

/-- A meal in category Dessert with no tags and no ingredients: it
matches neither the categories nor the tags of any mood. -/
def mealDessert : MealDetails where
  idMeal := "103"
  strMeal := "Plain Cake"
  strMealThumb := ""
  strCategory := some "Dessert"
  strArea := none
  strTags := none
  strInstructions := none
  strIngredient := fun _ => none
  strMeasure := fun _ => none

/-- A candidate meal for the orchestrator fixtures. -/
def meal1 : MealDetails where
  idMeal := "1"
  strMeal := "Meal One"
  strMealThumb := ""
  strCategory := some "Beef"
  strArea := none
  strTags := none
  strInstructions := none
  strIngredient := fun i => if i = 1 then some "Chicken" else none
  strMeasure := fun _ => none

/-- Discovery response fixture: one ingredient query returning `meal1`. -/
def lists0 : List (List MealSummary) := [[⟨"1", "Meal One", ""⟩]]

/-- Detail-lookup fixture resolving only ID "1". -/
def details0 : String → Option MealDetails := fun id => if id = "1" then some meal1 else none

/-- Unconstrained search input over the ingredient "chicken". -/
def input0 : SearchInput := ⟨"chicken", "", TimeChoice.any, MoodChoice.any, Diet.dietNone⟩

/-- The idle component state. -/
def st0 : UIState := ⟨false, none, [], []⟩

/-- A component state still holding a previous search's results and an
expanded card. -/
def stPrev : UIState := ⟨false, none, [mealDessert], ["103"]⟩

/-! ## Helper lemmas -/

lemma strIncludes_iff (s sub : String) : strIncludes s sub = true ↔ sub.data <:+: s.data :=
  decide_eq_true_iff

lemma toNat_charOfNat_of_lt {n : Nat} (h : n < 55296) : (Char.ofNat n).toNat = n := by
  rw [Char.ofNat, dif_pos (Or.inl h)]
  rfl

lemma charToLower_not_upper (c : Char) :
    ¬(65 ≤ (charToLower c).toNat ∧ (charToLower c).toNat ≤ 90) := by
  unfold charToLower
  split
  · next h => rw [toNat_charOfNat_of_lt (by omega)]; omega
  · next h => exact h

lemma charToLower_eq_self {c : Char} (h : ¬(65 ≤ c.toNat ∧ c.toNat ≤ 90)) :
    charToLower c = c := if_neg h

lemma charToLower_idem (c : Char) : charToLower (charToLower c) = charToLower c :=
  charToLower_eq_self (charToLower_not_upper c)

lemma data_lowerStr (s : String) : (lowerStr s).data = s.data.map charToLower := rfl

lemma lowerStr_idem (s : String) : lowerStr (lowerStr s) = lowerStr s := by
  show String.mk ((s.data.map charToLower).map charToLower) = String.mk (s.data.map charToLower)
  rw [List.map_map]
  exact congrArg String.mk (List.map_congr_left fun c _ => charToLower_idem c)

lemma not_upper_mem_lowerStr {c : Char} {s : String} (hc : c ∈ (lowerStr s).data) :
    ¬(65 ≤ c.toNat ∧ c.toNat ≤ 90) := by
  rw [data_lowerStr, List.mem_map] at hc
  obtain ⟨d, -, rfl⟩ := hc
  exact charToLower_not_upper d

lemma mem_foldl_dedupStep (l acc : List String) (x : String) :
    x ∈ l.foldl (fun acc y => if y ∈ acc then acc else acc ++ [y]) acc ↔ x ∈ acc ∨ x ∈ l := by
  induction l generalizing acc with
  | nil => simp
  | cons a t ih =>
    rw [List.foldl_cons, ih]
    by_cases h : a ∈ acc
    · rw [if_pos h]
      simp only [List.mem_cons]
      constructor
      · rintro (hx | hx)
        · exact Or.inl hx
        · exact Or.inr (Or.inr hx)
      · rintro (hx | rfl | hx)
        · exact Or.inl hx
        · exact Or.inl h
        · exact Or.inr hx
    · rw [if_neg h]
      simp [List.mem_append, List.mem_cons, or_assoc]

lemma mem_insertionDedup (l : List String) (x : String) :
    x ∈ insertionDedup l ↔ x ∈ l := by
  unfold insertionDedup
  rw [mem_foldl_dedupStep]
  simp

lemma insertionDedup_eq_nil (l : List String) : insertionDedup l = [] ↔ l = [] := by
  constructor
  · intro h
    cases l with
    | nil => rfl
    | cons a t =>
      have ha : a ∈ insertionDedup (a :: t) := (mem_insertionDedup _ _).mpr (List.mem_cons_self a t)
      rw [h] at ha
      exact absurd ha (List.not_mem_nil a)
  · rintro rfl
    rfl

lemma mem_interStep (a b : List String) (x : String) :
    x ∈ interStep a b ↔ x ∈ a ∧ x ∈ b := by
  simp [interStep]

lemma mem_foldl_interStep (ls : List (List String)) (acc : List String) (x : String) :
    x ∈ ls.foldl interStep acc ↔ x ∈ acc ∧ ∀ s ∈ ls, x ∈ s := by
  induction ls generalizing acc with
  | nil => simp
  | cons s ls ih =>
    rw [List.foldl_cons, ih, mem_interStep]
    simp only [List.mem_cons, and_assoc]
    constructor
    · rintro ⟨hx, hs, hall⟩
      exact ⟨hx, fun u hu => hu.elim (fun h => h ▸ hs) (hall u)⟩
    · rintro ⟨hx, hall⟩
      exact ⟨hx, hall s (Or.inl rfl), fun u hu => hall u (Or.inr hu)⟩

lemma mem_intersectIds (l : List String) (ls : List (List String)) (x : String) :
    x ∈ intersectIds (l :: ls) ↔ x ∈ l ∧ ∀ s ∈ ls, x ∈ s := by
  unfold intersectIds
  rw [mem_foldl_interStep, mem_insertionDedup]

lemma mem_intersectIds_map (l : List String) (f : String → List String) (x : String) :
    x ∈ intersectIds (l.map f) ↔ l ≠ [] ∧ ∀ i ∈ l, x ∈ f i := by
  cases l with
  | nil => simp [intersectIds]
  | cons a t =>
    rw [List.map_cons, mem_intersectIds]
    constructor
    · rintro ⟨ha, hall⟩
      refine ⟨List.cons_ne_nil a t, fun i hi => ?_⟩
      rcases List.mem_cons.mp hi with rfl | hi
      · exact ha
      · exact hall (f i) (List.mem_map_of_mem f hi)
    · rintro ⟨-, hall⟩
      refine ⟨hall a (List.mem_cons_self a t), fun s hs => ?_⟩
      obtain ⟨i, hi, rfl⟩ := List.mem_map.mp hs
      exact hall i (List.mem_cons_of_mem a hi)

lemma filterMap_eq_map_filter {α β : Type} (l : List α) (f : α → Option β) (p : α → Bool)
    (g : α → β) (hf : ∀ a, f a = if p a then some (g a) else none) :
    l.filterMap f = (l.filter p).map g := by
  induction l with
  | nil => rfl
  | cons a t ih =>
    cases hpa : p a <;>
      simp [List.filterMap_cons, List.filter_cons, hf a, hpa, ih]

lemma any_congr {α : Type} (l : List α) (p q : α → Bool)
    (h : ∀ a ∈ l, p a = q a) : l.any p = l.any q := by
  induction l with
  | nil => rfl
  | cons a t ih =>
    simp only [List.any_cons]
    rw [h a (List.mem_cons_self a t), ih fun b hb => h b (List.mem_cons_of_mem a hb)]

lemma getIngredients_eq_filter_map (m : MealDetails) :
    getIngredients m = ((List.range' 1 20).filter (slotKept m)).map (slotLine m) := by
  unfold getIngredients
  refine filterMap_eq_map_filter _ _ _ _ fun i => ?_
  unfold slotKept slotLine
  cases h : m.strIngredient i with
  | none => rfl
  | some ing =>
    show (if ing ≠ "" ∧ jsTrim ing ≠ "" then
        some (⟨jsTrim ing, jsTrim ((m.strMeasure i).getD "")⟩ : IngredientLine) else none)
      = if decide (ing ≠ "" ∧ jsTrim ing ≠ "") = true then
        some (⟨jsTrim ((some ing).getD ""), jsTrim ((m.strMeasure i).getD "")⟩ : IngredientLine)
      else none
    by_cases hing : ing ≠ "" ∧ jsTrim ing ≠ ""
    · rw [if_pos hing, if_pos (by simpa using hing)]
      simp
    · rw [if_neg hing, if_neg (by simpa using hing)]

/-! ## Claim theorems -/

/-- C7: `getIngredients` scans slots 1 through 20 in ascending slot
order and returns exactly the slots whose ingredient field is non-blank
after trimming, as `{ingredient, measure}` pairs with the measure
defaulting to the empty string when absent, and no blank ingredient
ever appears in the output. -/
theorem getIngredients_scans_slots (m : MealDetails) :
    getIngredients m = ((List.range' 1 20).filter (slotKept m)).map (slotLine m) ∧
    ∀ line ∈ getIngredients m, line.ingredient ≠ "" := by
  refine ⟨getIngredients_eq_filter_map m, fun line hline => ?_⟩
  rw [getIngredients_eq_filter_map m] at hline
  obtain ⟨i, hi, rfl⟩ := List.mem_map.mp hline
  have hkept := (List.mem_filter.mp hi).2
  unfold slotKept at hkept
  unfold slotLine
  cases h : m.strIngredient i with
  | none => rw [h] at hkept; exact absurd hkept (by simp)
  | some ing =>
    rw [h] at hkept
    have hcond : ing ≠ "" ∧ jsTrim ing ≠ "" := of_decide_eq_true hkept
    simpa using hcond.2

/-- C7 witness: on a concrete meal the characterization holds and the
extracted "Wheat Flour" line is non-blank. -/
theorem getIngredients_scans_slots_witness :
    getIngredients mealWheat =
      ((List.range' 1 20).filter (slotKept mealWheat)).map (slotLine mealWheat) ∧
    (⟨"Wheat Flour", "2 cups"⟩ : IngredientLine).ingredient ≠ "" :=
  ⟨(getIngredients_scans_slots mealWheat).1,
   (getIngredients_scans_slots mealWheat).2 ⟨"Wheat Flour", "2 cups"⟩ (by decide)⟩

/-- C2: `estimateMinutes` equals `round(words * 0.25 + n * 2)` clamped
to `[5, 180]` (with `words` the whitespace-token count of the
instructions and `n` the extracted-ingredient count), always lies in
`[5, 180]`, and the clamped formula is monotonically non-decreasing in
both arguments. -/
theorem estimateMinutes_spec (m : MealDetails) :
    estimateMinutes m =
      estimateSpec (countWords (jsTrim (m.strInstructions.getD ""))) (getIngredients m).length ∧
    5 ≤ estimateMinutes m ∧ estimateMinutes m ≤ 180 ∧
    ∀ w1 w2 n1 n2 : ℕ, w1 ≤ w2 → n1 ≤ n2 → estimateSpec w1 n1 ≤ estimateSpec w2 n2 := by
  refine ⟨?_, ?_, ?_, ?_⟩
  · simp [estimateMinutes, estimateSpec, jsRound, round_eq]
  · exact le_max_left _ _
  · exact max_le (by norm_num) (min_le_right _ _)
  · intro w1 w2 n1 n2 hw hn
    unfold estimateSpec
    have hw2 : (w1 : ℚ) ≤ w2 := by exact_mod_cast hw
    have hn2 : (n1 : ℚ) ≤ n2 := by exact_mod_cast hn
    have hr : round ((w1 : ℚ) * (1 / 4) + (n1 : ℚ) * 2) ≤
        round ((w2 : ℚ) * (1 / 4) + (n2 : ℚ) * 2) := by
      rw [round_eq, round_eq]
      exact Int.floor_le_floor (by nlinarith)
    exact max_le_max le_rfl (min_le_min hr le_rfl)

/-- C2 witness: the theorem applied to a concrete meal, with the
monotonicity conjunct discharged at concrete word/ingredient counts. -/
theorem estimateMinutes_spec_witness :
    5 ≤ estimateMinutes mealWheat ∧ estimateMinutes mealWheat ≤ 180 ∧
    estimateSpec 0 0 ≤ estimateSpec 8 2 :=
  ⟨(estimateMinutes_spec mealWheat).2.1, (estimateMinutes_spec mealWheat).2.2.1,
   (estimateMinutes_spec mealWheat).2.2.2 0 8 0 2 (by decide) (by decide)⟩

/-- C8: the ID-set intersection is commutative and associative up to
set membership, intersecting a list with itself preserves its members,
and intersecting with an empty list yields the empty set. -/
theorem intersection_algebra (a b c : List String) (x : String) :
    (x ∈ interStep a b ↔ x ∈ interStep b a) ∧
    (x ∈ interStep (interStep a b) c ↔ x ∈ interStep a (interStep b c)) ∧
    (x ∈ interStep a a ↔ x ∈ a) ∧
    interStep a [] = [] ∧
    (x ∈ intersectIds [a, b] ↔ x ∈ intersectIds [b, a]) ∧
    (x ∈ intersectIds [a, a] ↔ x ∈ a) ∧
    intersectIds [a, []] = [] := by
  refine ⟨?_, ?_, ?_, ?_, ?_, ?_, ?_⟩
  · rw [mem_interStep, mem_interStep]; tauto
  · rw [mem_interStep, mem_interStep, mem_interStep, mem_interStep]; tauto
  · rw [mem_interStep]; tauto
  · simp [interStep]
  · rw [mem_intersectIds, mem_intersectIds]; simp; tauto
  · rw [mem_intersectIds]; simp
  · show interStep (insertionDedup a) [] = []
    simp [interStep]

/-- C8 witness: the algebraic facts evaluated at concrete ID lists. -/
theorem intersection_algebra_witness :
    "2" ∈ interStep ["1", "2"] ["2"] ↔ "2" ∈ interStep ["2"] ["1", "2"] :=
  (intersection_algebra ["1", "2"] ["2"] [] "2").1

/-- C5: the Gluten-Free diet predicate accepts a meal iff no lower-cased
extracted ingredient name contains any entry of the fixed disallow
list, and in particular any meal with an ingredient whose lower-cased
name contains "wheat" is rejected. -/
theorem matchesDiet_glutenFree_spec (m : MealDetails) :
    (matchesDiet m Diet.glutenFree = true ↔
      ∀ line ∈ getIngredients m,
        ∀ g ∈ (["flour", "bread", "pasta", "noodles", "wheat", "barley", "bulgur",
            "semolina"] : List String),
          ¬ g.data <:+: (lowerStr line.ingredient).data) ∧
    ((∃ line ∈ getIngredients m, ("wheat".data : List Char) <:+: (lowerStr line.ingredient).data) →
      matchesDiet m Diet.glutenFree = false) := by
  have hiff : matchesDiet m Diet.glutenFree = true ↔
      ∀ line ∈ getIngredients m,
        ∀ g ∈ (["flour", "bread", "pasta", "noodles", "wheat", "barley", "bulgur",
            "semolina"] : List String),
          ¬ g.data <:+: (lowerStr line.ingredient).data := by
    unfold matchesDiet
    rw [if_neg (by decide), if_neg (by decide), if_neg (by decide), if_pos rfl]
    simp only [Bool.not_eq_true', List.any_eq_false, List.mem_map, List.any_eq_true,
      decide_eq_true_iff, strIncludes, not_exists, not_and, forall_exists_index, and_imp]
    constructor
    · intro h line hline g hg
      exact h (lowerStr line.ingredient) line hline rfl g hg
    · intro h x line hline hx g hg
      exact hx ▸ h line hline g hg
  refine ⟨hiff, ?_⟩
  rintro ⟨line, hline, hwheat⟩
  cases hmd : matchesDiet m Diet.glutenFree
  · rfl
  · exact absurd hwheat (hiff.mp hmd line hline "wheat" (by decide))

/-- C5 witness: a meal whose ingredient list contains "Wheat Flour" is
rejected by the Gluten-Free predicate. -/
theorem matchesDiet_glutenFree_spec_witness :
    matchesDiet mealWheat Diet.glutenFree = false :=
  (matchesDiet_glutenFree_spec mealWheat).2
    ⟨⟨"Wheat Flour", "2 cups"⟩, by decide, by decide⟩

/-- C6 counterexample: the claim's iff with the excluded term
lower-cased fails on the code, because the source compares the term
verbatim — an uppercase exclude term whose lower-casing does match is
not filtered out. -/
theorem excludeIngredients_lowercase_counterexample :
    excludeIngredients mealChickenPeanuts ["Peanut"] = true ∧
    excludeSpecLowercased mealChickenPeanuts ["Peanut"] = false := by decide

/-- C6 (amended): `excludeIngredients` returns true iff the exclusion
list is empty or no excluded term, taken verbatim, is a substring of
any lower-cased extracted ingredient name; the spec's concrete
peanut/almond examples hold. -/
theorem excludeIngredients_spec :
    (∀ (m : MealDetails) (excludes : List String),
      excludeIngredients m excludes = true ↔
        excludes = [] ∨ ∀ ex ∈ excludes, ∀ line ∈ getIngredients m,
          ¬ ex.data <:+: (lowerStr line.ingredient).data) ∧
    excludeIngredients mealChickenPeanuts ["peanut"] = false ∧
    excludeIngredients mealChickenPeanuts ["almond"] = true := by
  refine ⟨fun m excludes => ?_, by decide, by decide⟩
  unfold excludeIngredients
  by_cases hemp : excludes.isEmpty
  · rw [if_pos hemp]
    rw [List.isEmpty_iff] at hemp
    simp [hemp]
  · rw [if_neg hemp]
    rw [List.isEmpty_iff] at hemp
    simp only [Bool.not_eq_true', List.any_eq_false, List.mem_map, List.any_eq_true,
      decide_eq_true_iff, strIncludes, not_exists, not_and, forall_exists_index, and_imp,
      hemp, false_or]
    constructor
    · intro h ex hex line hline
      exact h ex hex (lowerStr line.ingredient) line hline rfl
    · intro h ex hex x line hline hx
      exact hx ▸ h ex hex line hline

/-- C6 witness: the amended iff applied at the empty exclusion list. -/
theorem excludeIngredients_spec_witness :
    excludeIngredients mealChickenPeanuts [] = true :=
  (excludeIngredients_spec.1 mealChickenPeanuts []).mpr (Or.inl rfl)

/-- C1 counterexample: for the mood 'Comforting', which configures only
a category set, a Dessert meal with no tags matches neither the
configured categories nor any tag substring, yet `matchesMood` accepts
it (the missing tag configuration makes `tagOk` vacuously true and the
two checks are OR-ed). -/
theorem matchesMood_claim_counterexample :
    matchesMood mealDessert MoodChoice.comforting = true ∧
    specMatchesMood mealDessert MoodChoice.comforting = false := by decide

/-- C1 (amended): for moods configuring both a category set and tag
substrings (Healthy, Adventurous) `matchesMood` agrees with the
claimed category-OR-tag criterion, but for moods configuring only one
half (Comforting, Quick) it accepts every meal. -/
theorem matchesMood_amended (m : MealDetails) :
    matchesMood m MoodChoice.any = true ∧
    matchesMood m MoodChoice.healthy = specMatchesMood m MoodChoice.healthy ∧
    matchesMood m MoodChoice.adventurous = specMatchesMood m MoodChoice.adventurous ∧
    matchesMood m MoodChoice.comforting = true ∧
    matchesMood m MoodChoice.quick = true := by
  refine ⟨rfl, ?_, ?_, ?_, ?_⟩ <;>
    simp [matchesMood, specMatchesMood, MOOD_MAP]

/-- C1 witness: the amended statement evaluated on the Dessert meal. -/
theorem matchesMood_amended_witness :
    matchesMood mealDessert MoodChoice.comforting = true :=
  (matchesMood_amended mealDessert).2.2.2.1

/-- C4 counterexample: the input "chicken, chicken" parses to the same
ingredient twice and the orchestrator issues one query per parsed
entry, so the duplicated ingredient is queried twice, not once. -/
theorem issuedQueries_duplicate_counterexample :
    issuedQueries "chicken, chicken" = ["chicken", "chicken"] ∧
    insertionDedup (parseIngredients "chicken, chicken") = ["chicken"] ∧
    (issuedQueries "chicken, chicken").length = 2 ∧
    (insertionDedup (parseIngredients "chicken, chicken")).length = 1 := by decide

/-- C4 (amended): the orchestrator issues exactly one
`filterByIngredient` query per parsed ingredient entry, duplicates
included; duplicate entries are harmless because deduplicating the
query list does not change membership in the resulting ID
intersection. -/
theorem issuedQueries_per_parsed_entry :
    (∀ input, issuedQueries input = parseIngredients input) ∧
    (∀ (l : List String) (f : String → List String) (x : String),
      x ∈ intersectIds ((insertionDedup l).map f) ↔ x ∈ intersectIds (l.map f)) := by
  refine ⟨fun _ => rfl, fun l f x => ?_⟩
  rw [mem_intersectIds_map, mem_intersectIds_map]
  constructor
  · rintro ⟨hne, hall⟩
    exact ⟨fun h => hne (by rw [h]; rfl),
      fun i hi => hall i ((mem_insertionDedup l i).mpr hi)⟩
  · rintro ⟨hne, hall⟩
    exact ⟨fun h => hne ((insertionDedup_eq_nil l).mp h),
      fun i hi => hall i ((mem_insertionDedup l i).mp hi)⟩

/-- C4 witness: the amended per-entry statement applied to a concrete
input. -/
theorem issuedQueries_per_parsed_entry_witness :
    issuedQueries "chicken, rice" = parseIngredients "chicken, rice" :=
  issuedQueries_per_parsed_entry.1 "chicken, rice"

/-- C9: `excludeIngredients` compares exclude terms verbatim while
lower-casing only the ingredient names, so a term containing an ASCII
uppercase letter never matches any ingredient; the UI's exclude parser
only produces lower-cased terms, and on such lists the code agrees
with the lowercased-term reading of the exclusion rule. -/
theorem excludeIngredients_verbatim_terms :
    (∀ (m : MealDetails) (ex : String),
      (∃ c ∈ ex.data, 65 ≤ c.toNat ∧ c.toNat ≤ 90) →
      ∀ line ∈ getIngredients m, strIncludes (lowerStr line.ingredient) ex = false) ∧
    (∀ input, ∀ t ∈ parseExcludes input, lowerStr t = t) ∧
    (∀ (m : MealDetails) (excludes : List String),
      (∀ t ∈ excludes, lowerStr t = t) →
      excludeIngredients m excludes = excludeSpecLowercased m excludes) := by
  refine ⟨?_, ?_, ?_⟩
  · rintro m ex ⟨c, hc, hupper⟩ line hline
    unfold strIncludes
    rw [decide_eq_false_iff_not]
    rintro ⟨s, t, hst⟩
    have hcmem : c ∈ (lowerStr line.ingredient).data := by
      rw [← hst]
      exact List.mem_append.mpr (Or.inl (List.mem_append.mpr (Or.inr hc)))
    exact absurd hupper (not_upper_mem_lowerStr hcmem)
  · intro input t ht
    unfold parseExcludes at ht
    obtain ⟨ht2, -⟩ := List.mem_filter.mp ht
    obtain ⟨s, -, rfl⟩ := List.mem_map.mp ht2
    exact lowerStr_idem _
  · intro m excludes hlow
    unfold excludeIngredients excludeSpecLowercased
    by_cases hemp : excludes.isEmpty
    · rw [if_pos hemp, if_pos hemp]
    · rw [if_neg hemp, if_neg hemp]
      show (!excludes.any fun ex =>
          ((getIngredients m).map fun i => lowerStr i.ingredient).any fun i => strIncludes i ex)
        = (!excludes.any fun ex =>
          ((getIngredients m).map fun i => lowerStr i.ingredient).any fun i =>
            strIncludes i (lowerStr ex))
      congr 1
      exact any_congr _ _ _ fun ex hex => by rw [hlow ex hex]

/-- C9 witness: the uppercase term "Peanut" cannot match the
lower-cased ingredient "peanuts", and on the parser-style lowercase
list ["peanut"] the code and the lowercased-term reading agree. -/
theorem excludeIngredients_verbatim_terms_witness :
    strIncludes (lowerStr "Peanuts") "Peanut" = false ∧
    excludeIngredients mealChickenPeanuts ["peanut"] =
      excludeSpecLowercased mealChickenPeanuts ["peanut"] :=
  ⟨excludeIngredients_verbatim_terms.1 mealChickenPeanuts "Peanut"
      ⟨'P', by decide, by decide⟩ ⟨"Peanuts", ""⟩ (by decide),
   excludeIngredients_verbatim_terms.2.2 mealChickenPeanuts ["peanut"] (by decide)⟩

/-- C3: when validation passes and every candidate-discovery query
succeeds, a meal is in the final result set iff some ID among the
first 24 of the intersection of the per-ingredient ID sets resolves to
it via the detail oracle and all four predicates hold; an ID whose
detail lookup is absent is dropped without producing an error. -/
theorem onSearch_results_spec (st : UIState) (input : SearchInput)
    (lists : List (List MealSummary)) (details : String → Option MealDetails)
    (d : MealDetails)
    (hne : (parseIngredients input.ingredientsInput).isEmpty = false) :
    d ∈ (onSearch st input (.ok lists details)).meals ↔
      (∃ id ∈ (intersectIds (lists.map fun list => list.map fun s => s.idMeal)).take 24,
        details id = some d) ∧
      matchesTime d input.time = true ∧ matchesMood d input.mood = true ∧
      matchesDiet d input.diet = true ∧
      excludeIngredients d (parseExcludes input.excludeInput) = true := by
  unfold onSearch searchResults passesAllFilters
  rw [hne]
  simp only [Bool.false_eq_true, if_false]
  rw [List.mem_filter, List.mem_filterMap]
  simp [Bool.and_eq_true, and_assoc]

/-- C3 witness: with one successful query returning candidate "1",
whose details resolve, and no active filters, the meal is in the
results. -/
theorem onSearch_results_spec_witness :
    meal1 ∈ (onSearch st0 input0 (.ok lists0 details0)).meals :=
  (onSearch_results_spec st0 input0 lists0 details0 meal1 (by decide)).mpr
    ⟨⟨"1", by decide, rfl⟩, rfl, rfl, rfl, rfl⟩

/-- C10: every submit clears the previous results and expanded-card
state (the resulting meals are independent of the prior state and
`expanded` is always cleared), and whenever the search ends with an
error message the results list is empty. -/
theorem onSearch_error_clears (st st2 : UIState) (input : SearchInput)
    (outcome : FetchOutcome) :
    (onSearch st input outcome).expanded = [] ∧
    ((onSearch st input outcome).error.isSome = true →
      (onSearch st input outcome).meals = []) ∧
    (onSearch st input outcome).meals = (onSearch st2 input outcome).meals := by
  unfold onSearch
  by_cases h : (parseIngredients input.ingredientsInput).isEmpty
  · simp [h]
  · cases outcome <;> simp [h]

/-- C10 witness: a failed discovery over a state holding previous
results ends with an error and an empty results list. -/
theorem onSearch_error_clears_witness :
    (onSearch stPrev input0 (.networkError "Network error fetching meals")).meals = [] :=
  (onSearch_error_clears stPrev st0 input0
    (.networkError "Network error fetching meals")).2.1 (by decide)

end RecipeSuggestions
